import Mathlib

/-!
Shallow embedding of the transcoding layer of `include/yaml-cpp/node/convert.h`
(the conversion rules between native typed values and the YAML document tree),
together with theorems checking the stated design properties against it.

Scalar text is modelled as `String` and dissected as `List Char`; the regex
constants of namespace `conversion` become decidable full-string matchers; the
C++ wide parses `std::stoll` and `std::stoull` become `Option` valued
functions whose `none` is the out_of_range exception caught in the decode
bodies; exact integer arithmetic replaces machine integers, with the 64-bit
accumulator bounds written out explicitly.
-/

set_option autoImplicit false
set_option linter.unusedVariables false

namespace YamlCpp

/-! ### Character classes of the scalar grammars -/

/-- Decimal digit class `[0-9]` by code point. -/
def isDig (c : Char) : Bool := 48 ≤ c.toNat && c.toNat ≤ 57

/-- Octal digit class `[0-7]` by code point. -/
def isOct (c : Char) : Bool := 48 ≤ c.toNat && c.toNat ≤ 55

/-- Hexadecimal digit class `[0-9a-fA-F]` by code point. -/
def isHexDig (c : Char) : Bool :=
  isDig c || (97 ≤ c.toNat && c.toNat ≤ 102) || (65 ≤ c.toNat && c.toNat ≤ 70)

/-- Nonempty run of characters of one class, the `+` of the regexes. -/
def digits1 (p : Char → Bool) (cs : List Char) : Bool := !cs.isEmpty && cs.all p

/-- Full-string match of `conversion::re_decimal` = `[-+]?[0-9]+`
(convert.h line 39), as used by `std::regex_match`. -/
def matchDecimal (cs : List Char) : Bool :=
  match cs with
  | [] => false
  | c :: rest =>
    if c = '-' || c = '+' then digits1 isDig rest else digits1 isDig (c :: rest)

/-- Full-string match of `conversion::re_octal` = `0o[0-7]+` (convert.h line 40). -/
def matchOctal (cs : List Char) : Bool :=
  match cs with
  | c0 :: c1 :: rest => c0 = '0' && c1 = 'o' && digits1 isOct rest
  | _ => false

/-- Full-string match of `conversion::re_hex` = `0x[0-9a-fA-F]+` (convert.h line 41). -/
def matchHex (cs : List Char) : Bool :=
  match cs with
  | c0 :: c1 :: rest => c0 = '0' && c1 = 'x' && digits1 isHexDig rest
  | _ => false

/-! ### Digit strings and their numeric values -/

/-- Numeric value of one digit character, covering the decimal, octal and
hexadecimal classes at once. -/
def hexVal (c : Char) : Nat :=
  if 48 ≤ c.toNat ∧ c.toNat ≤ 57 then c.toNat - 48
  else if 97 ≤ c.toNat ∧ c.toNat ≤ 102 then c.toNat - 87
  else if 65 ≤ c.toNat ∧ c.toNat ≤ 70 then c.toNat - 55
  else 0

/-- Value of a digit string in the given base, most significant digit first. -/
def digitsToNat (b : Nat) (cs : List Char) : Nat :=
  cs.foldl (fun acc c => b * acc + hexVal c) 0

/-- Character of one decimal digit. -/
def digitChar (d : Nat) : Char := Char.ofNat (48 + d)

/-- Decimal digit string of a natural number, as printed by the C++ standard
library: most significant digit first, no sign, no leading zeros except for 0
itself. -/
def natToDigits (n : Nat) : List Char :=
  if h : n < 10 then [digitChar n]
  else natToDigits (n / 10) ++ [digitChar (n % 10)]
decreasing_by
  exact Nat.div_lt_self (by omega) (by omega)

/-- Models `std::to_string` on a signed integer: minus sign for negatives
followed by the decimal digits of the magnitude. -/
def intToChars (i : Int) : List Char :=
  if i < 0 then '-' :: natToDigits i.natAbs else natToDigits i.natAbs

/-! ### The wide accumulators of the integral decodes -/

/-- Smallest value of the C++ `long long` accumulator. -/
def llMin : Int := -(2 ^ 63)

/-- Largest value of the C++ `long long` accumulator. -/
def llMax : Int := 2 ^ 63 - 1

/-- Largest value of the C++ `unsigned long long` accumulator. -/
def ullMax : Nat := 2 ^ 64 - 1

/-- Signed value of a full match of `re_decimal`: optional sign, then decimal
digits. -/
def decSignedVal (cs : List Char) : Int :=
  match cs with
  | [] => 0
  | c :: rest =>
    if c = '-' then -(digitsToNat 10 rest : Int)
    else if c = '+' then (digitsToNat 10 rest : Int)
    else (digitsToNat 10 (c :: rest) : Int)

/-- Models `std::stoll` applied to a full match of `re_decimal`
(convert.h line 134); `none` is the out_of_range exception. -/
def stollDec (cs : List Char) : Option Int :=
  if decSignedVal cs < llMin ∨ llMax < decSignedVal cs then none
  else some (decSignedVal cs)

/-- Models `std::stoll` with an explicit base applied to an unsigned digit
string, the `input.substr(2)` of the octal and hex branches
(convert.h lines 140 and 146). -/
def stollBase (b : Nat) (cs : List Char) : Option Int :=
  if llMax < (digitsToNat b cs : Int) then none
  else some (digitsToNat b cs : Int)

/-- Models `std::stoull` applied to a full match of `re_decimal`
(convert.h line 177): a leading minus sign negates the magnitude in the
unsigned result type, wrapping modulo 2 to the 64; out_of_range fires only
when the magnitude itself exceeds the accumulator. -/
def stoullDec (cs : List Char) : Option Nat :=
  match cs with
  | [] => some 0
  | c :: rest =>
    if c = '-' then
      if ullMax < digitsToNat 10 rest then none
      else some ((2 ^ 64 - digitsToNat 10 rest % 2 ^ 64) % 2 ^ 64)
    else if c = '+' then
      if ullMax < digitsToNat 10 rest then none
      else some (digitsToNat 10 rest)
    else
      if ullMax < digitsToNat 10 (c :: rest) then none
      else some (digitsToNat 10 (c :: rest))

/-- Models `std::stoull` with an explicit base applied to an unsigned digit
string (convert.h lines 183 and 189). -/
def stoullBase (b : Nat) (cs : List Char) : Option Nat :=
  if ullMax < digitsToNat b cs then none else some (digitsToNat b cs)

/-! ### The document tree -/

/-- Document node of the yaml-cpp tree, restricted to the kinds `convert.h`
inspects: Null, Scalar with its text, Sequence with its children in order, Map
with its key and value child pairs in document order. -/
inductive Node where
  | null
  | scalar (s : String)
  | sequence (children : List Node)
  | map (pairs : List (Node × Node))

/-! ### Integral codecs -/

/-- Grammar dispatch and wide parse shared by the decode of signed integral
types (convert.h lines 132 to 152): try `re_decimal` with `stoll`, then
`re_octal` with `stoll` base 8 on the text after the prefix, then `re_hex`
with `stoll` base 16; no match of the three grammars fails. -/
def parseSignedWide (cs : List Char) : Option Int :=
  if matchDecimal cs then stollDec cs
  else if matchOctal cs then stollBase 8 (cs.drop 2)
  else if matchHex cs then stollBase 16 (cs.drop 2)
  else none

/-- Decode of `convert` for signed integral types (convert.h lines 127 to 159)
with target range tmin to tmax: require Scalar kind, parse wide, then reject a
value above tmax or below tmin. -/
def decodeSigned (tmin tmax : Int) (node : Node) : Option Int :=
  match node with
  | Node.scalar s =>
    match parseSignedWide s.data with
    | none => none
    | some num => if num > tmax ∨ num < tmin then none else some num
  | _ => none

/-- Encode of `convert` for signed integral types (convert.h line 125):
`Node(std::to_string(rhs))`. -/
def encodeSigned (i : Int) : Node := Node.scalar (String.mk (intToChars i))

/-- Grammar dispatch and wide parse of the decode of unsigned integral types
(convert.h lines 175 to 194). -/
def parseUnsignedWide (cs : List Char) : Option Nat :=
  if matchDecimal cs then stoullDec cs
  else if matchOctal cs then stoullBase 8 (cs.drop 2)
  else if matchHex cs then stoullBase 16 (cs.drop 2)
  else none

/-- Decode of `convert` for unsigned integral types (convert.h lines 170 to
202) with target maximum tmax; the source also compares against the type
minimum, which is 0 for every unsigned type, kept here as the vacuous second
disjunct. -/
def decodeUnsigned (tmax : Nat) (node : Node) : Option Nat :=
  match node with
  | Node.scalar s =>
    match parseUnsignedWide s.data with
    | none => none
    | some num => if num > tmax ∨ num < 0 then none else some num
  | _ => none

/-- Encode of `convert` for unsigned integral types (convert.h line 168). -/
def encodeUnsigned (n : Nat) : Node := Node.scalar (String.mk (natToDigits n))

/-- Range of a 32-bit signed integer, the concrete target of several stated
examples. -/
def int32min : Int := -(2 ^ 31)

/-- Largest 32-bit signed integer. -/
def int32max : Int := 2 ^ 31 - 1

/-- Largest 32-bit unsigned integer. -/
def uint32max : Nat := 2 ^ 32 - 1

/-! ### Floating point codec -/

/-- Value of a floating point object as `convert.h` distinguishes them through
`std::isnan`, `std::isinf` and `std::signbit`: NaN, the two infinities, or a
finite value, the latter modelled as an exact rational. -/
inductive FloatVal where
  | finite (q : ℚ)
  | posInf
  | negInf
  | nan
deriving DecidableEq

/-- Character that does not open the exponent part of `re_float`. -/
def notExpChar (c : Char) : Bool := !(c = 'e' || c = 'E')

/-- Match of the mantissa alternative `(\.[0-9]+|[0-9]+(\.[0-9]*)?)` of
`re_float`. -/
def matchMantissa (cs : List Char) : Bool :=
  match cs with
  | [] => false
  | c :: rest =>
    if c = '.' then digits1 isDig rest
    else
      !((c :: rest).takeWhile isDig).isEmpty &&
        (match (c :: rest).dropWhile isDig with
         | [] => true
         | d :: frac => d = '.' && frac.all isDig)

/-- Match of the optional exponent part `([eE][-+]?[0-9]+)?` of `re_float`,
starting at the e or E character when one is present. -/
def matchExpPart (cs : List Char) : Bool :=
  match cs with
  | [] => true
  | _ :: ecs =>
    match ecs with
    | [] => false
    | c :: tail =>
      if c = '-' || c = '+' then digits1 isDig tail else digits1 isDig (c :: tail)

/-- Match of `re_float` after the optional leading sign was removed; the text
is split at the first e or E, which a full match places between mantissa and
exponent digits. -/
def matchFloatNoSign (cs : List Char) : Bool :=
  matchMantissa (cs.takeWhile notExpChar) && matchExpPart (cs.dropWhile notExpChar)

/-- Full-string match of `conversion::re_float` (convert.h lines 42 to 43). -/
def matchFloat (cs : List Char) : Bool :=
  match cs with
  | [] => false
  | c :: rest =>
    if c = '-' || c = '+' then matchFloatNoSign rest else matchFloatNoSign cs

/-- Body alternatives `\.inf|\.Inf|\.INF` of `re_inf`. -/
def matchInfBody (cs : List Char) : Bool :=
  cs = ['.', 'i', 'n', 'f'] || cs = ['.', 'I', 'n', 'f'] || cs = ['.', 'I', 'N', 'F']

/-- Full-string match of `conversion::re_inf` = `[-+]?(\.inf|\.Inf|\.INF)`
(convert.h line 44). -/
def matchInf (cs : List Char) : Bool :=
  match cs with
  | [] => false
  | c :: rest =>
    if c = '-' || c = '+' then matchInfBody rest else matchInfBody cs

/-- Full-string match of `conversion::re_nan` = `\.nan|\.NaN|\.NAN`
(convert.h line 45). -/
def matchNan (cs : List Char) : Bool :=
  cs = ['.', 'n', 'a', 'n'] || cs = ['.', 'N', 'a', 'N'] || cs = ['.', 'N', 'A', 'N']

/-- Exact value of the mantissa of a full match of `re_float`: integer part
plus fraction. -/
def evalMantissa (cs : List Char) : ℚ :=
  let frac : List Char :=
    match cs.dropWhile isDig with
    | [] => []
    | _ :: f => f
  (digitsToNat 10 (cs.takeWhile isDig) : ℚ) +
    (digitsToNat 10 frac : ℚ) / (10 : ℚ) ^ frac.length

/-- Signed value of the exponent part, 0 when absent. -/
def evalExpPart (cs : List Char) : Int :=
  match cs with
  | [] => 0
  | _ :: ecs =>
    match ecs with
    | [] => 0
    | c :: tail =>
      if c = '-' then -(digitsToNat 10 tail : Int)
      else if c = '+' then (digitsToNat 10 tail : Int)
      else (digitsToNat 10 (c :: tail) : Int)

/-- Integer power of ten as a rational. -/
def pow10 (e : Int) : ℚ :=
  if 0 ≤ e then (10 : ℚ) ^ e.toNat else 1 / (10 : ℚ) ^ (-e).toNat

/-- Exact value of a full match of `re_float` after the sign was removed. -/
def evalFloatNoSign (cs : List Char) : ℚ :=
  evalMantissa (cs.takeWhile notExpChar) * pow10 (evalExpPart (cs.dropWhile notExpChar))

/-- Exact value denoted by a full match of `re_float`. -/
def evalFloat (cs : List Char) : ℚ :=
  match cs with
  | [] => 0
  | c :: rest =>
    if c = '-' then -(evalFloatNoSign rest)
    else if c = '+' then evalFloatNoSign rest
    else evalFloatNoSign cs

/-- Overflow bound of the long double read, a power of two beyond its largest
finite value. -/
def ldMax : ℚ := 2 ^ 16384

/-- Models the `std::stold` call of the float decode together with its caught
out_of_range exception (convert.h lines 235 to 239); the rounding of an exact
decimal value to long double is not modelled, the development evaluates this
only where the value is exactly representable. -/
def stoldOpt (cs : List Char) : Option ℚ :=
  if evalFloat cs < -ldMax ∨ ldMax < evalFloat cs then none
  else some (evalFloat cs)

/-- Encode of `convert` for floating point types (convert.h lines 209 to 227):
NaN and the infinities map to fixed scalars; a finite value is formatted by
`stream << rhs` at max_digits10 precision, modelled by the parameter fmt since
that text is produced by the C++ iostream library, and a trailing dot is
appended when the formatted text itself matches `re_decimal`. -/
def encodeFloat (fmt : ℚ → List Char) (v : FloatVal) : Node :=
  match v with
  | FloatVal.nan => Node.scalar ".nan"
  | FloatVal.negInf => Node.scalar "-.inf"
  | FloatVal.posInf => Node.scalar ".inf"
  | FloatVal.finite q =>
    if matchDecimal (fmt q) then Node.scalar (String.mk (fmt q ++ ['.']))
    else Node.scalar (String.mk (fmt q))

/-- Decode of `convert` for floating point types (convert.h lines 229 to 253):
require Scalar kind, then try `re_float` through `stold`, then `re_inf` with
the sign read from the first character, then `re_nan`. -/
def decodeFloat (node : Node) : Option FloatVal :=
  match node with
  | Node.scalar s =>
    if matchFloat s.data then
      match stoldOpt s.data with
      | none => none
      | some q => some (FloatVal.finite q)
    else if matchInf s.data then
      if s.data.head? = some '-' then some FloatVal.negInf else some FloatVal.posInf
    else if matchNan s.data then some FloatVal.nan
    else none
  | _ => none

/-! ### Binary codec -/

/-- Decode of `convert<Binary>` (convert.h lines 417 to 427): require Scalar
kind, base64 decode the text through the external collaborator b64, and fail
when the byte buffer came back empty although the text was not; bytes are
naturals. -/
def decodeBinary (b64 : String → List Nat) (node : Node) : Option (List Nat) :=
  match node with
  | Node.scalar s =>
    if (b64 s).isEmpty && !s.data.isEmpty then none else some (b64 s)
  | _ => none

/-! ### Container codecs -/

/-- Outcome of a decode call whose body may also let a C++ exception escape:
`ok` with the value the target holds on a true return, `fail` for a false
return, `thrown` for an exception propagating out of the decode. -/
inductive DResult (α : Type) where
  | ok (a : α)
  | fail
  | thrown
deriving DecidableEq

/-- Modelled from the spec: the element accessor `Node::as<T>` used at every
container composition site lives in `node/impl.h`, which is outside the given
sources; design note 9 calls it a throwing convenience accessor, so it yields
the decoded value on success and otherwise throws a conversion exception,
rendered here as the `none` outcome that the container decoders turn into
`DResult.thrown`. -/
def asAccess {τ : Type} (d : Node → Option τ) (n : Node) : Option τ := d n

/-- Element loop shared by the decode of `std::vector` (convert.h lines 307 to
313) and `std::list` (lines 334 to 340): each child is read through the
throwing accessor and appended; the first failing child aborts the loop by
throwing. -/
def decodeElems {τ : Type} (d : Node → Option τ) (xs : List Node) : DResult (List τ) :=
  match xs with
  | [] => DResult.ok []
  | x :: rest =>
    match asAccess d x with
    | none => DResult.thrown
    | some v =>
      match decodeElems d rest with
      | DResult.ok vs => DResult.ok (v :: vs)
      | DResult.fail => DResult.fail
      | DResult.thrown => DResult.thrown

/-- Decode of `convert<std::vector<T>>` (convert.h lines 302 to 315): a node
that is not Sequence kind returns false; otherwise the target is cleared and
the children are decoded in order. -/
def decodeVector {τ : Type} (d : Node → Option τ) (node : Node) : DResult (List τ) :=
  match node with
  | Node.sequence xs => decodeElems d xs
  | _ => DResult.fail

/-- Decode of `convert<std::list<T>>` (convert.h lines 329 to 342), the same
structure as the vector decode. -/
def decodeList {τ : Type} (d : Node → Option τ) (node : Node) : DResult (List τ) :=
  match node with
  | Node.sequence xs => decodeElems d xs
  | _ => DResult.fail

/-- Models assignment through `rhs[k] = v` on a key-unique `std::map` held as
an association list: an existing entry of the key has its mapped value
overwritten in place, a new key is appended. -/
def stdMapInsert {κ ν : Type} [DecidableEq κ] (m : List (κ × ν)) (k : κ) (v : ν) :
    List (κ × ν) :=
  match m with
  | [] => [(k, v)]
  | (k0, v0) :: rest => if k0 = k then (k, v) :: rest else (k0, v0) :: stdMapInsert rest k v

/-- Lookup on the association list model of `std::map`. -/
def stdMapFind {κ ν : Type} [DecidableEq κ] (m : List (κ × ν)) (k : κ) : Option ν :=
  match m with
  | [] => none
  | (k0, v0) :: rest => if k0 = k then some v0 else stdMapFind rest k

/-- Pair loop of `convert<std::map<K, V>>::decode` (convert.h lines 280 to
286): for every key and value child pair in document order, read the key and
the value through the throwing accessor, then assign through the bracket
operator. -/
def decodeMapPairs {κ ν : Type} [DecidableEq κ]
    (dk : Node → Option κ) (dv : Node → Option ν)
    (ps : List (Node × Node)) (acc : List (κ × ν)) : DResult (List (κ × ν)) :=
  match ps with
  | [] => DResult.ok acc
  | kv :: rest =>
    match asAccess dk kv.1 with
    | none => DResult.thrown
    | some k =>
      match asAccess dv kv.2 with
      | none => DResult.thrown
      | some v => decodeMapPairs dk dv rest (stdMapInsert acc k v)

/-- Decode of `convert<std::map<K, V>>` (convert.h lines 275 to 288): a node
that is not Map kind returns false; otherwise `rhs.clear()` discards the prior
contents of the target and every pair is decoded and inserted in document
order. -/
def decodeStdMap {κ ν : Type} [DecidableEq κ]
    (dk : Node → Option κ) (dv : Node → Option ν)
    (rhs0 : List (κ × ν)) (node : Node) : DResult (List (κ × ν)) :=
  match node with
  | Node.map ps => decodeMapPairs dk dv ps []
  | _ => DResult.fail

/-- Decode of `convert<std::pair<T, U>>` (convert.h lines 388 to 407): require
Sequence kind of exactly two children, then decode child 0 into the first
member and child 1 into the second, both through the throwing accessor. -/
def decodePair {τ υ : Type} (dt : Node → Option τ) (du : Node → Option υ)
    (node : Node) : DResult (τ × υ) :=
  match node with
  | Node.sequence xs =>
    if xs.length ≠ 2 then DResult.fail
    else
      match asAccess dt (xs.getD 0 Node.null) with
      | none => DResult.thrown
      | some a =>
        match asAccess du (xs.getD 1 Node.null) with
        | none => DResult.thrown
        | some b => DResult.ok (a, b)
  | _ => DResult.fail

/-- Index loop of `convert<std::array<T, N>>::decode` (convert.h lines 361 to
368): `rhs[i] = node[i].as<T>()` assigns straight into the target one index at
a time; the second component is the contents of the target when the loop ends,
also when the accessor throws partway. -/
def decodeArrayLoop {τ : Type} (d : Node → Option τ)
    (xs : List Node) (i : Nat) (rhs : List τ) : DResult Unit × List τ :=
  match xs with
  | [] => (DResult.ok (), rhs)
  | x :: rest =>
    match asAccess d x with
    | none => (DResult.thrown, rhs)
    | some v => decodeArrayLoop d rest (i + 1) (rhs.set i v)

/-- Decode of `convert<std::array<T, N>>` (convert.h lines 356 to 375):
`isNodeValid` requires Sequence kind and size exactly N before any element is
read; the target contents are threaded through. -/
def decodeArray {τ : Type} (d : Node → Option τ) (N : Nat) (node : Node)
    (rhs : List τ) : DResult Unit × List τ :=
  match node with
  | Node.sequence xs =>
    if xs.length = N then decodeArrayLoop d xs 0 rhs else (DResult.fail, rhs)
  | _ => (DResult.fail, rhs)

/-! ### Specification-side helpers for the stated properties -/

/-- Pointwise decode of a list of nodes, `some` only when every element
decodes; used to phrase hypotheses about children that decode cleanly. -/
def decodeAll {τ : Type} (d : Node → Option τ) (xs : List Node) : Option (List τ) :=
  match xs with
  | [] => some []
  | x :: rest =>
    match d x with
    | none => none
    | some v =>
      match decodeAll d rest with
      | none => none
      | some vs => some (v :: vs)

/-- Pointwise decode of key and value child pairs. -/
def decodePairList {κ ν : Type} (dk : Node → Option κ) (dv : Node → Option ν)
    (ps : List (Node × Node)) : Option (List (κ × ν)) :=
  match ps with
  | [] => some []
  | kv :: rest =>
    match dk kv.1 with
    | none => none
    | some k =>
      match dv kv.2 with
      | none => none
      | some v =>
        match decodePairList dk dv rest with
        | none => none
        | some l => some ((k, v) :: l)

/-- Map built by inserting a list of decoded pairs in order into a cleared
target. -/
def buildMap {κ ν : Type} [DecidableEq κ] (l : List (κ × ν)) : List (κ × ν) :=
  l.foldl (fun m kv => stdMapInsert m kv.1 kv.2) []

/-- Value of the last pair of the list holding the given key, the reading of
standard key-unique map semantics in which a later duplicate wins. -/
def lastAssoc {κ ν : Type} [DecidableEq κ] (l : List (κ × ν)) (k : κ) : Option ν :=
  match l with
  | [] => none
  | (k0, v0) :: rest =>
    match lastAssoc rest k with
    | some w => some w
    | none => if k0 = k then some v0 else none

/-! ## Lemmas on digit strings and printing -/

theorem data_mk (l : List Char) : (String.mk l).data = l := rfl

theorem hexVal_digitChar {d : Nat} (h : d < 10) : hexVal (digitChar d) = d := by
  interval_cases d <;> decide

theorem isDig_digitChar {d : Nat} (h : d < 10) : isDig (digitChar d) = true := by
  interval_cases d <;> decide

theorem natToDigits_ne_nil (n : Nat) : natToDigits n ≠ [] := by
  rw [natToDigits]
  split <;> simp

theorem natToDigits_all_isDig (n : Nat) : (natToDigits n).all isDig = true := by
  induction n using Nat.strong_induction_on with
  | _ n ih =>
    rw [natToDigits]
    split
    · rename_i h
      simp [isDig_digitChar h]
    · rename_i h
      have h1 := ih (n / 10) (Nat.div_lt_self (by omega) (by omega))
      have h2 : isDig (digitChar (n % 10)) = true :=
        isDig_digitChar (Nat.mod_lt n (by omega))
      simp [List.all_append, h1, h2]

theorem digitsToNat_append (b : Nat) (l : List Char) (c : Char) :
    digitsToNat b (l ++ [c]) = b * digitsToNat b l + hexVal c := by
  simp [digitsToNat, List.foldl_append]

theorem digitsToNat_natToDigits (n : Nat) : digitsToNat 10 (natToDigits n) = n := by
  induction n using Nat.strong_induction_on with
  | _ n ih =>
    rw [natToDigits]
    split
    · rename_i h
      simp [digitsToNat, hexVal_digitChar h]
    · rename_i h
      rw [digitsToNat_append, ih (n / 10) (Nat.div_lt_self (by omega) (by omega))]
      have h2 := hexVal_digitChar (Nat.mod_lt n (show 0 < 10 by omega))
      omega

theorem isDig_not_sign {c : Char} (h : isDig c = true) : c ≠ '-' ∧ c ≠ '+' := by
  refine ⟨fun he => ?_, fun he => ?_⟩ <;> subst he <;> exact absurd h (by decide)

theorem digits1_natToDigits (n : Nat) : digits1 isDig (natToDigits n) = true := by
  rcases hn : natToDigits n with _ | ⟨c, rest⟩
  · exact absurd hn (natToDigits_ne_nil n)
  · have hall := natToDigits_all_isDig n
    rw [hn] at hall
    simp [digits1, hall]

theorem matchDecimal_digits (n : Nat) : matchDecimal (natToDigits n) = true := by
  rcases hn : natToDigits n with _ | ⟨c, rest⟩
  · exact absurd hn (natToDigits_ne_nil n)
  · have hall := natToDigits_all_isDig n
    rw [hn] at hall
    have hc : isDig c = true := by
      simp only [List.all_cons, Bool.and_eq_true] at hall
      exact hall.1
    have hsign := isDig_not_sign hc
    simp only [matchDecimal]
    split
    · rename_i hcond
      simp only [Bool.or_eq_true, decide_eq_true_eq] at hcond
      rcases hcond with hx | hx
      · exact absurd hx hsign.1
      · exact absurd hx hsign.2
    · simp [digits1, hall]

theorem decSignedVal_digits (n : Nat) : decSignedVal (natToDigits n) = (n : Int) := by
  rcases hn : natToDigits n with _ | ⟨c, rest⟩
  · exact absurd hn (natToDigits_ne_nil n)
  · have hall := natToDigits_all_isDig n
    rw [hn] at hall
    have hc : isDig c = true := by
      simp only [List.all_cons, Bool.and_eq_true] at hall
      exact hall.1
    have hsign := isDig_not_sign hc
    simp only [decSignedVal]
    rw [if_neg hsign.1, if_neg hsign.2, ← hn, digitsToNat_natToDigits]

theorem decSignedVal_intToChars (i : Int) : decSignedVal (intToChars i) = i := by
  by_cases h : i < 0
  · simp only [intToChars, if_pos h, decSignedVal, if_pos]
    rw [digitsToNat_natToDigits]
    omega
  · simp only [intToChars, if_neg h]
    rw [decSignedVal_digits]
    omega

theorem matchDecimal_intToChars (i : Int) : matchDecimal (intToChars i) = true := by
  by_cases h : i < 0
  · simp only [intToChars, if_pos h, matchDecimal]
    simp [digits1_natToDigits]
  · simp only [intToChars, if_neg h]
    exact matchDecimal_digits i.natAbs

theorem stollDec_intToChars (i : Int) (h1 : llMin ≤ i) (h2 : i ≤ llMax) :
    stollDec (intToChars i) = some i := by
  rw [stollDec, decSignedVal_intToChars, if_neg (by omega)]

theorem stoullDec_digits (n : Nat) (h : n ≤ ullMax) :
    stoullDec (natToDigits n) = some n := by
  rcases hn : natToDigits n with _ | ⟨c, rest⟩
  · exact absurd hn (natToDigits_ne_nil n)
  · have hall := natToDigits_all_isDig n
    rw [hn] at hall
    have hc : isDig c = true := by
      simp only [List.all_cons, Bool.and_eq_true] at hall
      exact hall.1
    have hsign := isDig_not_sign hc
    have hv : digitsToNat 10 (c :: rest) = n := by rw [← hn, digitsToNat_natToDigits]
    simp only [stoullDec]
    rw [if_neg hsign.1, if_neg hsign.2, hv, if_neg (by omega)]

/-! ## Claim theorems on the integral codecs -/

/-- C3: for every integral target type, described by its range sitting inside
the wide accumulator, and every value representable in it, decoding the node
produced by encoding the value succeeds and yields the value exactly; stated
for the signed and the unsigned integral codec at once. -/
theorem integralRoundTrip (tmin tmax i : Int) (utmax n : Nat)
    (hs1 : llMin ≤ tmin) (hs2 : tmax ≤ llMax)
    (hi1 : tmin ≤ i) (hi2 : i ≤ tmax)
    (hu : utmax ≤ ullMax) (hn : n ≤ utmax) :
    decodeSigned tmin tmax (encodeSigned i) = some i ∧
    decodeUnsigned utmax (encodeUnsigned n) = some n := by
  constructor
  · have hparse : parseSignedWide (intToChars i) = some i := by
      simp only [parseSignedWide]
      rw [if_pos (matchDecimal_intToChars i)]
      exact stollDec_intToChars i (by omega) (by omega)
    simp only [encodeSigned, decodeSigned, data_mk, hparse]
    rw [if_neg (by omega)]
  · have hparse : parseUnsignedWide (natToDigits n) = some n := by
      simp only [parseUnsignedWide]
      rw [if_pos (matchDecimal_digits n)]
      exact stoullDec_digits n (by omega)
    simp only [encodeUnsigned, decodeUnsigned, data_mk, hparse]
    rw [if_neg (by omega)]

/-- Witness for C3 at the 32-bit signed target with value -42 and the 32-bit
unsigned target with value 42. -/
theorem integralRoundTrip_witness :
    decodeSigned int32min int32max (encodeSigned (-42)) = some (-42) ∧
    decodeUnsigned uint32max (encodeUnsigned 42) = some 42 :=
  integralRoundTrip int32min int32max (-42) uint32max 42
    (by decide) (by decide) (by decide) (by decide) (by decide) (by decide)

/-- C2: the integral decode parses through the wide 64-bit accumulator and
returns failure whenever that parse overflows, and whenever the parsed value
lies outside the target range; in particular the scalar
"99999999999999999999" fails for the 32-bit signed and unsigned targets. -/
theorem integralRangeReject (tmin tmax : Int) (utmax : Nat) (s : String) :
    (parseSignedWide s.data = none → decodeSigned tmin tmax (Node.scalar s) = none) ∧
    (∀ v : Int, parseSignedWide s.data = some v → (v > tmax ∨ v < tmin) →
      decodeSigned tmin tmax (Node.scalar s) = none) ∧
    (parseUnsignedWide s.data = none → decodeUnsigned utmax (Node.scalar s) = none) ∧
    (∀ v : Nat, parseUnsignedWide s.data = some v → v > utmax →
      decodeUnsigned utmax (Node.scalar s) = none) ∧
    decodeSigned int32min int32max (Node.scalar "99999999999999999999") = none ∧
    decodeUnsigned uint32max (Node.scalar "99999999999999999999") = none := by
  refine ⟨?_, ?_, ?_, ?_, ?_, ?_⟩
  · intro h
    simp [decodeSigned, h]
  · intro v hv hrange
    simp only [decodeSigned, hv]
    rw [if_pos hrange]
  · intro h
    simp [decodeUnsigned, h]
  · intro v hv hrange
    simp only [decodeUnsigned, hv]
    rw [if_pos (Or.inl hrange)]
  · decide
  · decide

/-- Witness for C2: the value 1000 parses but lies outside the signed 8-bit
range, so the decode fails there. -/
theorem integralRangeReject_witness :
    decodeSigned (-128) 127 (Node.scalar "1000") = none :=
  (integralRangeReject (-128) 127 255 "1000").2.1 1000 (by decide) (by decide)

/-- C4: the three fully anchored integer grammars are mutually exclusive, the
octal and hex forms admitting no sign, and the stated examples decode as
given for the 32-bit signed target: "42" and "0o52" and "0x2a" all decode to
42 while "-0x2a" fails. -/
theorem integralGrammars :
    (∀ cs : List Char, matchOctal cs = true →
      matchDecimal cs = false ∧ matchHex cs = false) ∧
    (∀ cs : List Char, matchHex cs = true →
      matchDecimal cs = false ∧ matchOctal cs = false) ∧
    decodeSigned int32min int32max (Node.scalar "42") = some 42 ∧
    decodeSigned int32min int32max (Node.scalar "0o52") = some 42 ∧
    decodeSigned int32min int32max (Node.scalar "0x2a") = some 42 ∧
    decodeSigned int32min int32max (Node.scalar "-0x2a") = none := by
  refine ⟨?_, ?_, by decide, by decide, by decide, by decide⟩
  · intro cs h
    rcases cs with _ | ⟨c0, cs1⟩
    · exact absurd h (by decide)
    rcases cs1 with _ | ⟨c1, rest⟩
    · exact absurd h (by simp [matchOctal])
    simp only [matchOctal, Bool.and_eq_true, decide_eq_true_eq] at h
    obtain ⟨⟨h0, h1⟩, hrest⟩ := h
    subst h0
    subst h1
    constructor
    · have ho : isDig 'o' = false := by decide
      simp [matchDecimal, digits1, ho]
    · simp [matchHex]
  · intro cs h
    rcases cs with _ | ⟨c0, cs1⟩
    · exact absurd h (by decide)
    rcases cs1 with _ | ⟨c1, rest⟩
    · exact absurd h (by simp [matchHex])
    simp only [matchHex, Bool.and_eq_true, decide_eq_true_eq] at h
    obtain ⟨⟨h0, h1⟩, hrest⟩ := h
    subst h0
    subst h1
    constructor
    · have hx : isDig 'x' = false := by decide
      simp [matchDecimal, digits1, hx]
    · simp [matchOctal]

/-- Witness for C4: the grammar exclusivity applied to the octal text "0o52"
and the hex text "0x2a". -/
theorem integralGrammars_witness :
    (matchDecimal "0o52".data = false ∧ matchHex "0o52".data = false) ∧
    (matchDecimal "0x2a".data = false ∧ matchOctal "0x2a".data = false) :=
  ⟨integralGrammars.1 "0o52".data (by decide),
   integralGrammars.2.1 "0x2a".data (by decide)⟩

/-! ## Claim theorems on container shape checks -/

/-- C7: container decodes fail on shape mismatch before decoding any element:
a Map kind node into a vector or list fails, a 3 child sequence into a pair
fails, and a 4 child sequence into an array of length 5 fails with the target
left untouched; the element decoder is arbitrary throughout, so no element is
ever consulted. -/
theorem containerShapeMismatch :
    (∀ (τ : Type) (d : Node → Option τ) (ps : List (Node × Node)),
      decodeVector d (Node.map ps) = DResult.fail ∧
      decodeList d (Node.map ps) = DResult.fail) ∧
    (∀ (τ υ : Type) (dt : Node → Option τ) (du : Node → Option υ) (xs : List Node),
      xs.length = 3 → decodePair dt du (Node.sequence xs) = DResult.fail) ∧
    (∀ (τ : Type) (d : Node → Option τ) (xs : List Node) (rhs : List τ),
      xs.length = 4 → decodeArray d 5 (Node.sequence xs) rhs = (DResult.fail, rhs)) := by
  refine ⟨?_, ?_, ?_⟩
  · intro τ d ps
    exact ⟨rfl, rfl⟩
  · intro τ υ dt du xs h
    simp [decodePair, h]
  · intro τ d xs rhs h
    simp [decodeArray, h]

/-- Witness for C7 with the 32-bit signed integer element decoder: an empty
map into a vector, a 3 element sequence into a pair, a 4 element sequence
into an array of length 5. -/
theorem containerShapeMismatch_witness :
    decodeVector (decodeSigned int32min int32max) (Node.map []) = DResult.fail ∧
    decodePair (decodeSigned int32min int32max) (decodeSigned int32min int32max)
      (Node.sequence [Node.null, Node.null, Node.null]) = DResult.fail ∧
    decodeArray (decodeSigned int32min int32max) 5
      (Node.sequence [Node.null, Node.null, Node.null, Node.null])
      [1, 2, 3, 4, 5] = (DResult.fail, [1, 2, 3, 4, 5]) := by
  refine ⟨(containerShapeMismatch.1 Int (decodeSigned int32min int32max) []).1,
    containerShapeMismatch.2.1 Int Int (decodeSigned int32min int32max)
      (decodeSigned int32min int32max) [Node.null, Node.null, Node.null] rfl,
    containerShapeMismatch.2.2 Int (decodeSigned int32min int32max)
      [Node.null, Node.null, Node.null, Node.null] [1, 2, 3, 4, 5] rfl⟩

/-! ## Claim theorems on the floating point codec -/

/-- C8: floating point encode maps NaN to the scalar ".nan", positive
infinity to ".inf" and negative infinity to "-.inf", and decoding each of the
encoded scalars yields a NaN value and reproduces the two infinities exactly,
whatever the finite formatter does. -/
theorem floatSpecials (fmt : ℚ → List Char) :
    encodeFloat fmt FloatVal.nan = Node.scalar ".nan" ∧
    encodeFloat fmt FloatVal.posInf = Node.scalar ".inf" ∧
    encodeFloat fmt FloatVal.negInf = Node.scalar "-.inf" ∧
    decodeFloat (encodeFloat fmt FloatVal.nan) = some FloatVal.nan ∧
    decodeFloat (encodeFloat fmt FloatVal.posInf) = some FloatVal.posInf ∧
    decodeFloat (encodeFloat fmt FloatVal.negInf) = some FloatVal.negInf := by
  refine ⟨rfl, rfl, rfl, ?_, ?_, ?_⟩
  · show decodeFloat (Node.scalar ".nan") = some FloatVal.nan
    decide
  · show decodeFloat (Node.scalar ".inf") = some FloatVal.posInf
    decide
  · show decodeFloat (Node.scalar "-.inf") = some FloatVal.negInf
    decide

/-- Witness for C8 with a trivial finite formatter. -/
theorem floatSpecials_witness :
    decodeFloat (encodeFloat (fun _ => []) FloatVal.nan) = some FloatVal.nan ∧
    decodeFloat (encodeFloat (fun _ => []) FloatVal.posInf) = some FloatVal.posInf ∧
    decodeFloat (encodeFloat (fun _ => []) FloatVal.negInf) = some FloatVal.negInf :=
  ⟨(floatSpecials (fun _ => [])).2.2.2.1,
   (floatSpecials (fun _ => [])).2.2.2.2.1,
   (floatSpecials (fun _ => [])).2.2.2.2.2⟩

/-- C5: encoding a finite float whose formatted text itself matches the
decimal integer grammar appends a trailing dot; with the standard formatter
printing the value 5 as "5", encoding 5 produces the scalar "5.", decoding
"5." as an integer fails for every signed and unsigned target, and decoding
"5." as a float succeeds with the exact value 5. -/
theorem floatIntDisambiguation (fmt : ℚ → List Char) (q : ℚ)
    (h5 : fmt 5 = ['5']) :
    (matchDecimal (fmt q) = true →
      encodeFloat fmt (FloatVal.finite q) = Node.scalar (String.mk (fmt q ++ ['.']))) ∧
    encodeFloat fmt (FloatVal.finite 5) = Node.scalar "5." ∧
    (∀ tmin tmax : Int, decodeSigned tmin tmax (Node.scalar "5.") = none) ∧
    (∀ tmax : Nat, decodeUnsigned tmax (Node.scalar "5.") = none) ∧
    decodeFloat (Node.scalar "5.") = some (FloatVal.finite 5) := by
  refine ⟨?_, ?_, ?_, ?_, ?_⟩
  · intro h
    simp only [encodeFloat]
    rw [if_pos h]
  · simp only [encodeFloat, h5]
    rw [if_pos (by decide)]
    rfl
  · intro tmin tmax
    have h : parseSignedWide "5.".data = none := by decide
    simp [decodeSigned, h]
  · intro tmax
    have h : parseUnsignedWide "5.".data = none := by decide
    simp [decodeUnsigned, h]
  · have hm : matchFloat "5.".data = true := by decide
    have hval : evalFloat "5.".data = 5 := by
      have e0 : ("5." : String).data = ['5', '.'] := rfl
      have e1 : List.takeWhile notExpChar ['5', '.'] = ['5', '.'] := rfl
      have e2 : List.dropWhile notExpChar ['5', '.'] = [] := rfl
      have e3 : evalExpPart [] = 0 := rfl
      have e4 : evalMantissa ['5', '.'] = 5 := by
        have f1 : List.takeWhile isDig ['5', '.'] = ['5'] := rfl
        have f2 : List.dropWhile isDig ['5', '.'] = ['.'] := rfl
        have f3 : digitsToNat 10 ['5'] = 5 := rfl
        have f4 : digitsToNat 10 ([] : List Char) = 0 := rfl
        simp only [evalMantissa, f1, f2, f3, f4]
        norm_num
      have e5 : evalFloat ['5', '.'] = evalFloatNoSign ['5', '.'] := by
        simp only [evalFloat]
        rw [if_neg (by decide), if_neg (by decide)]
      rw [e0, e5]
      simp only [evalFloatNoSign, e1, e2, e3, e4]
      norm_num [pow10]
    have hs : stoldOpt "5.".data = some 5 := by
      simp only [stoldOpt, hval]
      rw [if_neg (by norm_num [ldMax])]
    simp [decodeFloat, hm, hs]

/-- Witness for C5 at a formatter printing 5 as "5". -/
theorem floatIntDisambiguation_witness :
    encodeFloat (fun _ => ['5']) (FloatVal.finite 5) = Node.scalar "5." ∧
    decodeSigned int32min int32max (Node.scalar "5.") = none ∧
    decodeFloat (Node.scalar "5.") = some (FloatVal.finite 5) := by
  have h := floatIntDisambiguation (fun _ => ['5']) 5 rfl
  exact ⟨h.2.1, h.2.2.1 int32min int32max, h.2.2.2.2⟩

/-! ## Claim theorem on the binary codec -/

theorem decodeBinary_scalar (b64 : String → List Nat) (s : String) :
    decodeBinary b64 (Node.scalar s) =
      if ((b64 s).isEmpty && !s.data.isEmpty) = true then none else some (b64 s) := rfl

/-- C9: binary decode succeeds exactly when the node is Scalar kind and
either its text is empty, in which case it yields empty bytes rather than
failing, or the base64 decode of the text is nonempty; a nonempty scalar
whose base64 decode yields zero bytes fails, and non-Scalar nodes fail. The
base64 collaborator is a parameter that takes empty text to empty bytes. -/
theorem binaryDecode (b64 : String → List Nat) (hemp : b64 "" = [])
    (node : Node) :
    ((∃ bytes, decodeBinary b64 node = some bytes) ↔
      (∃ s, node = Node.scalar s ∧ (s.data = [] ∨ b64 s ≠ []))) ∧
    decodeBinary b64 (Node.scalar "") = some [] ∧
    (∀ s : String, s.data ≠ [] → b64 s = [] →
      decodeBinary b64 (Node.scalar s) = none) := by
  refine ⟨?_, ?_, ?_⟩
  · cases node with
    | scalar s =>
      constructor
      · rintro ⟨bytes, hb⟩
        refine ⟨s, rfl, ?_⟩
        by_contra hcon
        push_neg at hcon
        obtain ⟨hne, hb64⟩ := hcon
        rw [decodeBinary_scalar] at hb
        rw [if_pos (by simp [hb64, List.isEmpty_iff, hne])] at hb
        exact Option.noConfusion hb
      · rintro ⟨s2, hs2, hcase⟩
        injection hs2 with hss
        subst hss
        refine ⟨b64 s, ?_⟩
        rw [decodeBinary_scalar]
        rcases hcase with hc | hc
        · rw [if_neg (by simp [hc])]
        · rw [if_neg (by simp [List.isEmpty_iff, hc])]
    | null =>
      simp [decodeBinary]
    | sequence xs =>
      simp [decodeBinary]
    | map ps =>
      simp [decodeBinary]
  · rw [decodeBinary_scalar]
    rw [if_neg (by simp [show ("" : String).data = [] from rfl])]
    rw [hemp]
  · intro s hne hb64
    rw [decodeBinary_scalar]
    rw [if_pos (by simp [hb64, List.isEmpty_iff, hne])]

/-- Witness for C9 with a base64 collaborator decoding only the text "QQ==",
applied to the empty scalar and to a nonempty scalar that decodes to zero
bytes. -/
theorem binaryDecode_witness :
    decodeBinary (fun s => if s = "QQ==" then [65] else []) (Node.scalar "") =
      some [] ∧
    decodeBinary (fun s => if s = "QQ==" then [65] else []) (Node.scalar "bad") =
      none := by
  have h := binaryDecode (fun s => if s = "QQ==" then [65] else [])
    (by decide) (Node.scalar "bad")
  exact ⟨h.2.1, h.2.2 "bad" (by decide) (by decide)⟩

/-! ## Lemmas on the association list model of std::map -/

theorem stdMapFind_insert_self {κ ν : Type} [DecidableEq κ]
    (m : List (κ × ν)) (k : κ) (v : ν) :
    stdMapFind (stdMapInsert m k v) k = some v := by
  induction m with
  | nil => simp [stdMapInsert, stdMapFind]
  | cons kv rest ih =>
    obtain ⟨k0, v0⟩ := kv
    by_cases h : k0 = k
    · simp [stdMapInsert, stdMapFind, h]
    · simp [stdMapInsert, stdMapFind, h, ih]

theorem stdMapFind_insert_other {κ ν : Type} [DecidableEq κ]
    (m : List (κ × ν)) (k k1 : κ) (v : ν) (hne : k ≠ k1) :
    stdMapFind (stdMapInsert m k v) k1 = stdMapFind m k1 := by
  induction m with
  | nil => simp [stdMapInsert, stdMapFind, hne]
  | cons kv rest ih =>
    obtain ⟨k0, v0⟩ := kv
    by_cases h : k0 = k
    · subst h
      simp [stdMapInsert, stdMapFind, hne]
    · simp [stdMapInsert, stdMapFind, h, ih]

theorem stdMapFind_foldl {κ ν : Type} [DecidableEq κ]
    (l : List (κ × ν)) (m : List (κ × ν)) (k : κ) :
    stdMapFind (l.foldl (fun acc kv => stdMapInsert acc kv.1 kv.2) m) k =
      match lastAssoc l k with
      | some w => some w
      | none => stdMapFind m k := by
  induction l generalizing m with
  | nil => simp [lastAssoc]
  | cons kv rest ih =>
    obtain ⟨k0, v0⟩ := kv
    rw [List.foldl_cons, ih]
    by_cases h : k0 = k
    · rcases hla : lastAssoc rest k with _ | w
      · simp [lastAssoc, hla, h, stdMapFind_insert_self]
      · simp [lastAssoc, hla]
    · rcases hla : lastAssoc rest k with _ | w
      · simp [lastAssoc, hla, h, stdMapFind_insert_other m k0 k v0 h]
      · simp [lastAssoc, hla]

/-! ## Lemmas on the container loops -/

theorem decodeStdMap_map {κ ν : Type} [DecidableEq κ]
    (dk : Node → Option κ) (dv : Node → Option ν)
    (rhs0 : List (κ × ν)) (ps : List (Node × Node)) :
    decodeStdMap dk dv rhs0 (Node.map ps) = decodeMapPairs dk dv ps [] := rfl

theorem decodePair_two {τ υ : Type} (dt : Node → Option τ) (du : Node → Option υ)
    (a b : Node) :
    decodePair dt du (Node.sequence [a, b]) =
      (match dt a with
       | none => DResult.thrown
       | some x =>
         match du b with
         | none => DResult.thrown
         | some y => DResult.ok (x, y)) := rfl

theorem decodeMapPairs_append {κ ν : Type} [DecidableEq κ]
    (dk : Node → Option κ) (dv : Node → Option ν)
    (ps1 rest : List (Node × Node)) (l : List (κ × ν)) (acc : List (κ × ν))
    (h : decodePairList dk dv ps1 = some l) :
    decodeMapPairs dk dv (ps1 ++ rest) acc =
      decodeMapPairs dk dv rest
        (l.foldl (fun m kv => stdMapInsert m kv.1 kv.2) acc) := by
  induction ps1 generalizing l acc with
  | nil =>
    simp only [decodePairList] at h
    obtain rfl : ([] : List (κ × ν)) = l := Option.some.inj h
    simp
  | cons kv ps ih =>
    cases hk : dk kv.1 with
    | none =>
      simp only [decodePairList, hk] at h
      exact Option.noConfusion h
    | some k =>
      cases hv : dv kv.2 with
      | none =>
        simp only [decodePairList, hk, hv] at h
        exact Option.noConfusion h
      | some v =>
        cases hrest : decodePairList dk dv ps with
        | none =>
          simp only [decodePairList, hk, hv, hrest] at h
          exact Option.noConfusion h
        | some l2 =>
          simp only [decodePairList, hk, hv, hrest] at h
          obtain rfl : (k, v) :: l2 = l := by simpa using h
          simp only [List.cons_append, decodeMapPairs, asAccess, hk, hv,
            List.append_eq]
          rw [ih l2 (stdMapInsert acc k v) hrest]
          simp

theorem decodeElems_append {τ : Type} (d : Node → Option τ)
    (ns1 rest : List Node) (vs : List τ) (h : decodeAll d ns1 = some vs) :
    decodeElems d (ns1 ++ rest) =
      (match decodeElems d rest with
       | DResult.ok ws => DResult.ok (vs ++ ws)
       | DResult.fail => DResult.fail
       | DResult.thrown => DResult.thrown) := by
  induction ns1 generalizing vs with
  | nil =>
    simp only [decodeAll] at h
    obtain rfl : ([] : List τ) = vs := Option.some.inj h
    cases hr : decodeElems d rest <;> simp [hr]
  | cons x xs ih =>
    cases hx : d x with
    | none =>
      simp only [decodeAll, hx] at h
      exact Option.noConfusion h
    | some v =>
      cases hxs : decodeAll d xs with
      | none =>
        simp only [decodeAll, hx, hxs] at h
        exact Option.noConfusion h
      | some vs2 =>
        simp only [decodeAll, hx, hxs] at h
        obtain rfl : v :: vs2 = vs := by simpa using h
        simp only [List.cons_append, decodeElems, asAccess, hx, List.append_eq]
        rw [ih vs2 hxs]
        cases hr : decodeElems d rest <;> simp

theorem decodeElems_thrown {τ : Type} (d : Node → Option τ)
    (ns1 : List Node) (bad : Node) (rest : List Node) (vs : List τ)
    (h1 : decodeAll d ns1 = some vs) (h2 : d bad = none) :
    decodeElems d (ns1 ++ bad :: rest) = DResult.thrown := by
  rw [decodeElems_append d ns1 (bad :: rest) vs h1]
  simp [decodeElems, asAccess, h2]

theorem decodeArrayLoop_thrown {τ : Type} (d : Node → Option τ)
    (ns1 : List Node) (bad : Node) (rest : List Node) (vs : List τ)
    (h1 : decodeAll d ns1 = some vs) (h2 : d bad = none) :
    ∀ (i : Nat) (rhs : List τ),
      (decodeArrayLoop d (ns1 ++ bad :: rest) i rhs).1 = DResult.thrown := by
  induction ns1 generalizing vs with
  | nil =>
    intro i rhs
    simp [decodeArrayLoop, asAccess, h2]
  | cons x xs ih =>
    intro i rhs
    cases hx : d x with
    | none =>
      simp only [decodeAll, hx] at h1
      exact Option.noConfusion h1
    | some v =>
      cases hxs : decodeAll d xs with
      | none =>
        simp only [decodeAll, hx, hxs] at h1
        exact Option.noConfusion h1
      | some vs2 =>
        simp only [List.cons_append, decodeArrayLoop, asAccess, hx, List.append_eq]
        exact ih vs2 hxs (i + 1) (rhs.set i v)

/-! ## Claim theorems on the map decode and on child failure propagation -/

/-- C6: decoding a Map kind node clears the target whatever its prior
contents were, decodes every key and value child pair and inserts them in
document order, so that lookup in the result returns the value of the last
pair of each decoded key: a later duplicate key overwrites the earlier
value. -/
theorem mapDecodeLaterWins {κ ν : Type} [DecidableEq κ]
    (dk : Node → Option κ) (dv : Node → Option ν)
    (rhs0 : List (κ × ν)) (ps : List (Node × Node)) (l : List (κ × ν))
    (h : decodePairList dk dv ps = some l) :
    decodeStdMap dk dv rhs0 (Node.map ps) = DResult.ok (buildMap l) ∧
    ∀ k : κ, stdMapFind (buildMap l) k = lastAssoc l k := by
  constructor
  · rw [decodeStdMap_map]
    have := decodeMapPairs_append dk dv ps [] l [] h
    rw [List.append_nil] at this
    rw [this]
    rfl
  · intro k
    rw [buildMap, stdMapFind_foldl]
    rcases hla : lastAssoc l k with _ | w
    · simp [stdMapFind]
    · simp

/-- Witness for C6: a three pair map whose first and third keys decode to the
same integer 1; the decode succeeds, lookup of 1 yields the later value 30,
and the prior contents of the target do not survive. -/
theorem mapDecodeLaterWins_witness :
    decodeStdMap (decodeSigned int32min int32max) (decodeSigned int32min int32max)
      [(99, 99)]
      (Node.map [(Node.scalar "1", Node.scalar "10"),
        (Node.scalar "2", Node.scalar "20"),
        (Node.scalar "1", Node.scalar "30")]) =
      DResult.ok (buildMap [((1 : Int), (10 : Int)), (2, 20), (1, 30)]) ∧
    stdMapFind (buildMap [((1 : Int), (10 : Int)), (2, 20), (1, 30)]) 1 =
      some 30 := by
  have h := mapDecodeLaterWins (decodeSigned int32min int32max)
    (decodeSigned int32min int32max) [(99, 99)]
    [(Node.scalar "1", Node.scalar "10"), (Node.scalar "2", Node.scalar "20"),
     (Node.scalar "1", Node.scalar "30")]
    [((1 : Int), (10 : Int)), (2, 20), (1, 30)] (by decide)
  refine ⟨h.1, ?_⟩
  rw [h.2 1]
  decide

/-- C1 counterexample: a sequence decode into a vector whose single child
fails to decode as an integer does not return false at the boundary: the
throwing element accessor lets the failure escape as an exception. -/
theorem vectorChildFailureThrows :
    decodeVector (decodeSigned int32min int32max)
      (Node.sequence [Node.scalar "oops"]) = DResult.thrown ∧
    decodeVector (decodeSigned int32min int32max)
      (Node.sequence [Node.scalar "oops"]) ≠ DResult.fail := by
  constructor
  · decide
  · decide

/-- C1 amended: a container decode whose own node kind is wrong returns plain
false, and child failure propagation is fail-fast; but a child element that
fails to decode aborts the container decode with an exception thrown by the
element accessor rather than a false return: whatever children follow the
first failing one, the vector, list, map, pair and array decodes all end in
thrown. -/
theorem containerChildFailure (τ υ : Type) [DecidableEq τ]
    (d : Node → Option τ) (du : Node → Option υ) (rhs0 : List (τ × υ)) :
    (∀ ps : List (Node × Node), decodeVector d (Node.map ps) = DResult.fail) ∧
    (∀ (ns1 : List Node) (bad : Node) (rest : List Node) (vs : List τ),
      decodeAll d ns1 = some vs → d bad = none →
      decodeVector d (Node.sequence (ns1 ++ bad :: rest)) = DResult.thrown ∧
      decodeList d (Node.sequence (ns1 ++ bad :: rest)) = DResult.thrown) ∧
    (∀ (ps1 : List (Node × Node)) (kv : Node × Node) (rest : List (Node × Node))
       (l : List (τ × υ)),
      decodePairList d du ps1 = some l →
      (d kv.1 = none ∨ ∃ k, d kv.1 = some k ∧ du kv.2 = none) →
      decodeStdMap d du rhs0 (Node.map (ps1 ++ kv :: rest)) = DResult.thrown) ∧
    (∀ a b : Node,
      (d a = none → decodePair d du (Node.sequence [a, b]) = DResult.thrown) ∧
      (∀ x, d a = some x → du b = none →
        decodePair d du (Node.sequence [a, b]) = DResult.thrown)) ∧
    (∀ (ns1 : List Node) (bad : Node) (rest : List Node) (vs : List τ)
       (rhs : List τ),
      decodeAll d ns1 = some vs → d bad = none →
      (decodeArray d (ns1 ++ bad :: rest).length
        (Node.sequence (ns1 ++ bad :: rest)) rhs).1 = DResult.thrown) := by
  refine ⟨?_, ?_, ?_, ?_, ?_⟩
  · intro ps
    rfl
  · intro ns1 bad rest vs h1 h2
    exact ⟨decodeElems_thrown d ns1 bad rest vs h1 h2,
      decodeElems_thrown d ns1 bad rest vs h1 h2⟩
  · intro ps1 kv rest l h1 h2
    rw [decodeStdMap_map, decodeMapPairs_append d du ps1 (kv :: rest) l [] h1]
    rcases h2 with hk | ⟨k, hk, hv⟩
    · simp [decodeMapPairs, asAccess, hk]
    · simp [decodeMapPairs, asAccess, hk, hv]
  · intro a b
    constructor
    · intro ha
      rw [decodePair_two]
      simp [ha]
    · intro x ha hb
      rw [decodePair_two]
      simp [ha, hb]
  · intro ns1 bad rest vs rhs h1 h2
    simp only [decodeArray, if_pos rfl]
    exact decodeArrayLoop_thrown d ns1 bad rest vs h1 h2 0 rhs

/-- Witness for C1 amended, with the 32-bit signed integer decoder on both
sides: a failing middle child makes the vector, map, pair and array decodes
end in thrown, and a map node into a vector returns plain false. -/
theorem containerChildFailure_witness :
    decodeVector (decodeSigned int32min int32max) (Node.map []) = DResult.fail ∧
    decodeVector (decodeSigned int32min int32max)
      (Node.sequence [Node.scalar "1", Node.scalar "x", Node.scalar "2"]) =
      DResult.thrown ∧
    decodeStdMap (decodeSigned int32min int32max) (decodeSigned int32min int32max)
      [] (Node.map [(Node.scalar "1", Node.scalar "10"),
        (Node.scalar "2", Node.scalar "oops")]) = DResult.thrown ∧
    decodePair (decodeSigned int32min int32max) (decodeSigned int32min int32max)
      (Node.sequence [Node.scalar "x", Node.scalar "2"]) = DResult.thrown ∧
    (decodeArray (decodeSigned int32min int32max) 3
      (Node.sequence [Node.scalar "1", Node.scalar "x", Node.scalar "3"])
      [10, 20, 30]).1 = DResult.thrown := by
  have h := containerChildFailure Int Int (decodeSigned int32min int32max)
    (decodeSigned int32min int32max) []
  refine ⟨h.1 [], ?_, ?_, ?_, ?_⟩
  · exact (h.2.1 [Node.scalar "1"] (Node.scalar "x") [Node.scalar "2"] [1]
      (by decide) (by decide)).1
  · exact h.2.2.1 [(Node.scalar "1", Node.scalar "10")]
      (Node.scalar "2", Node.scalar "oops") [] [(1, 10)] (by decide)
      (Or.inr ⟨2, by decide, by decide⟩)
  · exact (h.2.2.2.1 (Node.scalar "x") (Node.scalar "2")).1 (by decide)
  · exact h.2.2.2.2 [Node.scalar "1"] (Node.scalar "x") [Node.scalar "3"] [1]
      [10, 20, 30] (by decide) (by decide)

/-- C10: the array decode assigns decoded elements straight into the target
one index at a time with no temporary and no rollback: on a 3 child sequence
whose middle child fails to decode, the loop throws with slot 0 already
holding the freshly decoded value and slots 1 and 2 keeping their prior
contents. -/
theorem arrayPartialMutation :
    decodeArray (decodeSigned int32min int32max) 3
      (Node.sequence [Node.scalar "1", Node.scalar "x", Node.scalar "3"])
      [10, 20, 30] = (DResult.thrown, [1, 20, 30]) ∧
    decodeArray (decodeSigned int32min int32max) 3
      (Node.sequence [Node.scalar "7", Node.scalar "8", Node.scalar "z"])
      [10, 20, 30] = (DResult.thrown, [7, 8, 30]) := by
  constructor
  · decide
  · decide

end YamlCpp
